import Mathlib

/-!
Shallow embedding of the issue-lifecycle core of the municipality
reporting application.

The definitions below are translated from
`src/app/utils/localStorage.ts` (the `storageUtils` object),
`src/app/utils/aiCategorization.ts` and `utils/analytics.ts`
(the `analyticsUtils` object).

Modelling conventions:
* ISO timestamp strings become `Nat` milliseconds since the epoch
  (the code only ever compares them via `Date.getTime()` differences).
* `T | null` return values become `Option`; every store operation in the
  source returns `null` exactly when `findIndex` fails, and never throws.
* Optional (`field?:`) record fields become `Option` fields.
* JavaScript numbers used for averages/percentages become `ℚ`/`ℤ`.
* The browser `localStorage` array of issues becomes an explicit
  `List Issue` threaded through each operation.
-/

inductive Status where
  | pending
  | inProgress
  | resolved
  | rejected
deriving DecidableEq, Repr

inductive Priority where
  | low
  | medium
  | high
  | urgent
deriving DecidableEq, Repr

inductive Role where
  | resident
  | staff
  | employee
deriving DecidableEq, Repr

/-- `StatusHistoryEntry` from localStorage.ts. -/
structure StatusHistoryEntry where
  status : Status
  changedBy : String
  changedAt : Nat
  note : Option String := none
deriving DecidableEq, Repr

/-- The `Issue` record of localStorage.ts, restricted to the fields the
issue-lifecycle operations and the analytics read or write. -/
structure Issue where
  id : String
  userId : String := ""
  title : String := ""
  description : String := ""
  category : String := ""
  location : String := ""
  status : Status := .pending
  priority : Priority := .medium
  createdAt : Nat := 0
  updatedAt : Nat := 0
  resolvedAt : Option Nat := none
  staffNotes : Option String := none
  department : Option String := none
  assignedToEmployee : Option String := none
  assignedToEmployeeName : Option String := none
  assignedBy : Option String := none
  assignedAt : Option Nat := none
  residentConfirmed : Option Bool := none
  residentConfirmedAt : Option Nat := none
  residentRejected : Option Bool := none
  residentRejectedAt : Option Nat := none
  residentFeedback : Option String := none
  statusHistory : Option (List StatusHistoryEntry) := none
  viewCount : Option Nat := none
deriving DecidableEq, Repr

/-- The `User` record of localStorage.ts, restricted to the fields that
`getEmployeesByDepartment` reads. -/
structure User where
  id : String
  firstName : String := ""
  lastName : String := ""
  role : Role := .resident
  department : Option String := none
deriving DecidableEq, Repr

/-- A `Partial<Issue>` update object as consumed by
`storageUtils.updateIssue`.  A `some` field is present in the object,
`none` is absent.  The keys `statusHistory`, `updatedAt` and `resolvedAt`
are omitted here because the implementation spreads them after
`...updates` and therefore overrides them unconditionally. -/
structure IssueUpdate where
  status : Option Status := none
  priority : Option Priority := none
  staffNotes : Option String := none
  department : Option String := none
deriving DecidableEq, Repr

/-- Spreading `...updates` over an issue: each present field replaces the
stored one. -/
def applyUpdates (i : Issue) (u : IssueUpdate) : Issue :=
  { i with
    status := u.status.getD i.status
    priority := u.priority.getD i.priority
    staffNotes := match u.staffNotes with
      | some v => some v
      | none => i.staffNotes
    department := match u.department with
      | some v => some v
      | none => i.department }

namespace storageUtils

/-- The `findIndex` / mutate-in-place / `return null` pattern shared by
`updateIssue`, `assignIssue`, `confirmResolution` and `rejectResolution`:
replace the first issue whose `id` matches, returning the updated record
and the updated store, or `none` when no issue matches. -/
def replaceFirst (issueId : String) (f : Issue → Issue) :
    List Issue → Option (Issue × List Issue)
  | [] => none
  | i :: rest =>
    if i.id = issueId then some (f i, f i :: rest)
    else
      match replaceFirst issueId f rest with
      | none => none
      | some (u, rest') => some (u, i :: rest')

/-- `storageUtils.addIssue`.  The input is an issue record without
`id`/`createdAt`/`updatedAt` (those fields of `input` are ignored);
a fresh id and the current time are supplied by the caller's
environment. -/
def addIssue (issues : List Issue) (input : Issue) (freshId : String)
    (now : Nat) : Issue × List Issue :=
  let newIssue : Issue :=
    { input with
      id := freshId
      createdAt := now
      updatedAt := now
      viewCount := some 0
      statusHistory := some [{ status := input.status, changedBy := "System",
                               changedAt := now, note := some "Report created" }] }
  (newIssue, issues ++ [newIssue])

/-- `storageUtils.updateIssue`.  Appends a history entry only when the
update carries a `status` field different from the current status;
sets `resolvedAt` when (and only when) the update's status is `resolved`
and `resolvedAt` was unset. -/
def updateIssue (issues : List Issue) (issueId : String) (updates : IssueUpdate)
    (changedBy : Option String) (note : Option String) (now : Nat) :
    Option (Issue × List Issue) :=
  replaceFirst issueId (fun old =>
    let hist := old.statusHistory.getD []
    let hist' := match updates.status with
      | some ns =>
        if ns = old.status then hist
        else hist ++ [{ status := ns, changedBy := changedBy.getD "System",
                        changedAt := now, note := note }]
      | none => hist
    { applyUpdates old updates with
      statusHistory := some hist'
      updatedAt := now
      resolvedAt :=
        if updates.status = some Status.resolved ∧ old.resolvedAt = none
        then some now else old.resolvedAt }) issues

/-- `storageUtils.getEmployeesByDepartment`. -/
def getEmployeesByDepartment (users : List User) (department : String) :
    List User :=
  users.filter fun u =>
    decide (u.role = Role.employee ∧ u.department = some department)

/-- `storageUtils.assignIssue`.  Unconditionally records the assignment
and appends one history entry carrying the unchanged current status. -/
def assignIssue (issues : List Issue) (issueId department employeeId
    employeeName assignedBy : String) (now : Nat) :
    Option (Issue × List Issue) :=
  replaceFirst issueId (fun old =>
    let hist := old.statusHistory.getD [] ++
      [{ status := old.status, changedBy := assignedBy, changedAt := now,
         note := some ("Assigned to " ++ department ++ " department - " ++
                       employeeName) }]
    { old with
      department := some department
      assignedToEmployee := some employeeId
      assignedToEmployeeName := some employeeName
      assignedBy := some assignedBy
      assignedAt := some now
      statusHistory := some hist
      updatedAt := now }) issues

/-- `storageUtils.confirmResolution`. -/
def confirmResolution (issues : List Issue) (issueId residentName : String)
    (now : Nat) : Option (Issue × List Issue) :=
  replaceFirst issueId (fun old =>
    let hist := old.statusHistory.getD [] ++
      [{ status := old.status, changedBy := residentName, changedAt := now,
         note := some "Resident confirmed issue has been resolved" }]
    { old with
      residentConfirmed := some true
      residentConfirmedAt := some now
      statusHistory := some hist
      updatedAt := now }) issues

/-- `storageUtils.rejectResolution`. -/
def rejectResolution (issues : List Issue) (issueId residentName
    feedback : String) (now : Nat) : Option (Issue × List Issue) :=
  replaceFirst issueId (fun old =>
    let hist := old.statusHistory.getD [] ++
      [{ status := Status.inProgress, changedBy := residentName,
         changedAt := now,
         note := some ("Resident reported issue not resolved: " ++ feedback) }]
    { old with
      status := Status.inProgress
      residentRejected := some true
      residentRejectedAt := some now
      residentFeedback := some feedback
      statusHistory := some hist
      updatedAt := now }) issues

end storageUtils

/-- `Math.round` of JavaScript: round half toward positive infinity. -/
def jsRound (q : ℚ) : ℤ := ⌊q + 1/2⌋

/-- One `{category, count, percentage}` row of
`analyticsUtils.getCategoryBreakdown`. -/
structure CategoryStats where
  category : String
  count : Nat
  percentage : ℤ
deriving DecidableEq, Repr

namespace analyticsUtils

/-- Milliseconds per day, the `1000 * 60 * 60 * 24` of analytics.ts. -/
def msPerDay : Nat := 86400000

/-- `analyticsUtils.calculateResolutionTime`: `null` unless the issue is
resolved, otherwise `Math.ceil(|updatedAt - createdAt| / msPerDay)`. -/
def calculateResolutionTime (issue : Issue) : Option Nat :=
  if issue.status = Status.resolved then
    let diffTime := ((issue.updatedAt : ℤ) - (issue.createdAt : ℤ)).natAbs
    some ((diffTime + (msPerDay - 1)) / msPerDay)
  else none

/-- The JavaScript `counts[cat] = (counts[cat] || 0) + 1` step: increment
the entry of `cat` in an association list kept in key-insertion order,
appending a fresh `(cat, 1)` entry when the key is new. -/
def bump (cat : String) : List (String × Nat) → List (String × Nat)
  | [] => [(cat, 1)]
  | (c, n) :: rest =>
    if c = cat then (c, n + 1) :: rest else (c, n) :: bump cat rest

/-- The `counts` object built by `getCategoryBreakdown`: per-category
totals in order of first occurrence (JavaScript string-keyed objects
enumerate keys in insertion order). -/
def tally (issues : List Issue) : List (String × Nat) :=
  issues.foldl (fun acc i => bump i.category acc) []

/-- Insert one row into a list sorted descending by `count`, after every
row of greater-or-equal count: together with `sortByCountDesc` this is
the (unique) stable sort by `(a, b) => b.count - a.count` that
`Array.prototype.sort` performs. -/
def insertByCountDesc (x : CategoryStats) :
    List CategoryStats → List CategoryStats
  | [] => [x]
  | y :: ys =>
    if y.count ≤ x.count then x :: y :: ys else y :: insertByCountDesc x ys

/-- Stable sort descending by `count` (see `insertByCountDesc`). -/
def sortByCountDesc : List CategoryStats → List CategoryStats
  | [] => []
  | x :: xs => insertByCountDesc x (sortByCountDesc xs)

/-- `analyticsUtils.getCategoryBreakdown`. -/
def getCategoryBreakdown (issues : List Issue) : List CategoryStats :=
  let total := issues.length
  if total = 0 then []
  else
    sortByCountDesc ((tally issues).map fun cn =>
      { category := cn.1, count := cn.2,
        percentage := jsRound ((cn.2 : ℚ) / (total : ℚ) * 100) })

/-- The `avgResolutionTime` computed inside
`analyticsUtils.getAnalyticsSummary`: `Math.round` of the mean of the
per-issue resolution times over resolved issues, `0` when there are
none. -/
def avgResolutionTime (issues : List Issue) : ℤ :=
  let resolvedIssues := issues.filter fun i => decide (i.status = Status.resolved)
  let resolutionTimes := resolvedIssues.filterMap calculateResolutionTime
  if resolutionTimes.length = 0 then 0
  else jsRound ((resolutionTimes.sum : ℚ) / (resolutionTimes.length : ℚ))

end analyticsUtils

/-- `CategoryResult` of aiCategorization.ts, with the JavaScript float
confidence modelled as a rational. -/
structure CategoryResult where
  category : String
  confidence : ℚ
  keywords : List String
deriving DecidableEq, Repr

/-- One entry of `categoryPatterns` in aiCategorization.ts. -/
structure CategoryKeywords where
  category : String
  keywords : List String
  priority : Priority
deriving DecidableEq, Repr

/-- `startsWithList needle l` : `needle` is a leading run of `l`. -/
def startsWithList : List Char → List Char → Bool
  | [], _ => true
  | _ :: _, [] => false
  | a :: as, b :: bs => a = b && startsWithList as bs

/-- `containsList needle l` : `needle` occurs contiguously in `l`. -/
def containsList (needle : List Char) : List Char → Bool
  | [] => startsWithList needle []
  | c :: cs => startsWithList needle (c :: cs) || containsList needle cs

/-- JavaScript `haystack.includes(needle)` on strings. -/
def strIncludes (haystack needle : String) : Bool :=
  containsList needle.data haystack.data

/-- JavaScript `toLowerCase()`, character-wise ASCII lowering (the only
characters the keyword table and the tests use are ASCII). -/
def lowerString (s : String) : String := ⟨s.data.map Char.toLower⟩

/-- The fixed `categoryPatterns` table of aiCategorization.ts
(keyword lists verbatim, in source order). -/
def categoryPatterns : List CategoryKeywords :=
  [ { category := "roads",
      keywords := ["pothole", "road", "pavement", "street", "crack",
                   "damaged road", "traffic", "intersection", "bridge",
                   "highway", "bump", "uneven", "surface"],
      priority := .high },
    { category := "water",
      keywords := ["water", "leak", "pipe", "burst", "tap", "faucet",
                   "dripping", "flood", "sewage", "drain", "sewer",
                   "sanitation", "plumbing", "overflow"],
      priority := .urgent },
    { category := "electricity",
      keywords := ["electricity", "power", "light", "streetlight", "lamp",
                   "bulb", "outage", "electrical", "cable", "wire",
                   "transformer", "blackout", "dark"],
      priority := .high },
    { category := "waste",
      keywords := ["garbage", "waste", "trash", "rubbish", "litter", "dump",
                   "collection", "bin", "refuse", "disposal", "recycling",
                   "dirt", "cleaning"],
      priority := .medium },
    { category := "safety",
      keywords := ["danger", "unsafe", "security", "crime", "vandalism",
                   "broken", "glass", "hazard", "risk", "threat",
                   "emergency", "accident", "injury"],
      priority := .urgent },
    { category := "parks",
      keywords := ["park", "playground", "garden", "grass", "trees",
                   "recreation", "sports field", "bench", "fence"],
      priority := .low },
    { category := "other",
      keywords := ["other", "general", "miscellaneous", "issue", "problem",
                   "concern"],
      priority := .low } ]

/-- The lowercased `title + " " + description` search text. -/
def searchText (title description : String) : String :=
  lowerString (title ++ " " ++ description)

/-- The keywords of one pattern that occur in the search text, in list
order (the `scores[cat].keywords` array). -/
def matchedKeywords (text : String) (p : CategoryKeywords) : List String :=
  p.keywords.filter fun kw => strIncludes text (lowerString kw)

/-- The scored table: per category, the matched keywords (whose length is
the `scores[cat].score`). -/
def scoredPatterns (title description : String) :
    List (String × List String) :=
  categoryPatterns.map fun p =>
    (p.category, matchedKeywords (searchText title description) p)

/-- The best-match selection loop of `categorizeIssueKeywordBased`:
starting from `("other", 0, [])`, replace the accumulator whenever a
category's score strictly exceeds the best score so far. -/
def bestFold (l : List (String × List String))
    (acc : String × Nat × List String) : String × Nat × List String :=
  l.foldl
    (fun a ck => if a.2.1 < ck.2.length then (ck.1, ck.2.length, ck.2) else a)
    acc

/-- `categorizeIssueKeywordBased` of aiCategorization.ts. -/
def categorizeIssueKeywordBased (title description : String) :
    CategoryResult :=
  let best := bestFold (scoredPatterns title description) ("other", 0, [])
  { category := best.1,
    confidence := min ((best.2.1 : ℚ) / 5) 1,
    keywords := best.2.2 }

/-! Helper lemmas about the shared first-match replacement pattern. -/

namespace storageUtils

theorem replaceFirst_append (issueId : String) (f : Issue → Issue)
    (pre : List Issue) (i : Issue) (post : List Issue)
    (hpre : ∀ j ∈ pre, j.id ≠ issueId) (hid : i.id = issueId) :
    replaceFirst issueId f (pre ++ i :: post) =
      some (f i, pre ++ f i :: post) := by
  induction pre with
  | nil => simp [replaceFirst, hid]
  | cons a as ih =>
    have ha : a.id ≠ issueId := hpre a (List.mem_cons_self a as)
    have ih' := ih fun j hj => hpre j (List.mem_cons_of_mem a hj)
    simp [replaceFirst, if_neg ha, ih']

end storageUtils

/-! Concrete fixtures used by the counterexamples and witnesses. -/

/-- The seeded creation history entry. -/
def demoHist0 : List StatusHistoryEntry :=
  [{ status := .pending, changedBy := "System", changedAt := 0,
     note := some "Report created" }]

/-- A stored issue that has reached `resolved` (with `resolvedAt` set). -/
def demoResolved : Issue :=
  { id := "1", category := "water", status := .resolved, createdAt := 0,
    updatedAt := 3, resolvedAt := some 3,
    statusHistory := some (demoHist0 ++
      [{ status := .resolved, changedBy := "Staff", changedAt := 3 }]) }

/-- A freshly created `pending` issue. -/
def demoPending : Issue :=
  { id := "1", category := "roads", status := .pending, createdAt := 0,
    updatedAt := 0, statusHistory := some demoHist0 }

/-- A stored issue whose status is `resolved` while `resolvedAt` is
unset (as created when a report enters the store already resolved). -/
def demoResolvedNoTS : Issue :=
  { id := "1", category := "roads", status := .resolved, createdAt := 0,
    updatedAt := 0, resolvedAt := none,
    statusHistory := some [{ status := .resolved, changedBy := "System",
                             changedAt := 0, note := some "Report created" }] }

/-- An employee of the `water` department. -/
def demoEmpWater : User :=
  { id := "e1", firstName := "E", lastName := "One", role := .employee,
    department := some "water" }

open storageUtils

/-- C1 counterexample: on a stored issue whose status is `resolved`,
`updateIssue` with `status: pending` does not fail — it returns the
updated record with status `pending` and even appends a history entry,
so the claimed `InvalidTransitionError` (and the claimed unchanged
state) does not occur. -/
theorem C1_cex :
    demoResolved.status = Status.resolved ∧
    ((updateIssue [demoResolved] "1" { status := some Status.pending }
        (some "Staff") none 10).map fun r =>
      (r.1.status, (r.1.statusHistory.getD []).length)) =
      some (Status.pending, 3) := by
  decide

/-- C1 amended: `updateIssue` performs no transition validation at all.
For every stored issue whose current status is `resolved` (first match
of its id), an update carrying any new status succeeds and sets exactly
that status — including `in-progress`, which the claim reserved to
`rejectResolution`. -/
theorem C1_updateStatus_resolved_ungated
    (pre post : List Issue) (i : Issue) (issueId : String)
    (u : IssueUpdate) (changedBy note : Option String) (now : Nat)
    (ns : Status)
    (hpre : ∀ j ∈ pre, j.id ≠ issueId) (hid : i.id = issueId)
    (_hres : i.status = Status.resolved) (hu : u.status = some ns) :
    ∃ i', updateIssue (pre ++ i :: post) issueId u changedBy note now =
        some (i', pre ++ i' :: post) ∧ i'.status = ns := by
  refine ⟨_, replaceFirst_append issueId _ pre i post hpre hid, ?_⟩
  simp [applyUpdates, hu]

/-- C1 witness: the resolved fixture can be driven to `in-progress` by a
plain `updateIssue` call. -/
theorem C1_updateStatus_resolved_ungated_witness :
    ((updateIssue [demoResolved] "1" { status := some Status.inProgress }
        none none 10).map fun r => r.1.status) = some Status.inProgress := by
  obtain ⟨i', h1, h2⟩ :=
    C1_updateStatus_resolved_ungated [] [] demoResolved "1"
      { status := some Status.inProgress } none none 10 Status.inProgress
      (by simp) rfl rfl rfl
  simp only [List.nil_append] at h1
  rw [h1]
  simp [h2]

/-- C6 counterexample: `updateIssue` with `newStatus` equal to the
current status succeeds but appends no history entry — the history
length stays 1, where the claim requires it to become 2. -/
theorem C6_cex :
    demoPending.status = Status.pending ∧
    (demoPending.statusHistory.getD []).length = 1 ∧
    ((updateIssue [demoPending] "1" { status := some Status.pending }
        (some "S") none 9).map fun r =>
      (r.1.statusHistory.getD []).length) = some 1 := by
  decide

/-- C6 amended: for every stored issue, `updateIssue` with a status
equal to the current one succeeds, leaves the history untouched (no
entry is appended: the re-confirmation is a silent no-op on the audit
trail) and only refreshes `updatedAt`. -/
theorem C6_idempotent_update_appends_nothing
    (pre post : List Issue) (i : Issue) (issueId : String)
    (u : IssueUpdate) (changedBy note : Option String) (now : Nat)
    (hpre : ∀ j ∈ pre, j.id ≠ issueId) (hid : i.id = issueId)
    (hu : u.status = some i.status) :
    ∃ i', updateIssue (pre ++ i :: post) issueId u changedBy note now =
        some (i', pre ++ i' :: post) ∧
      i'.status = i.status ∧
      i'.statusHistory.getD [] = i.statusHistory.getD [] ∧
      i'.updatedAt = now := by
  refine ⟨_, replaceFirst_append issueId _ pre i post hpre hid, ?_, ?_, rfl⟩
  · simp [applyUpdates, hu]
  · simp [hu]

/-- C6 witness: the pending fixture, re-confirmed as pending. -/
theorem C6_idempotent_update_appends_nothing_witness :
    ((updateIssue [demoPending] "1" { status := some Status.pending }
        (some "S") none 9).map fun r =>
      (r.1.status, (r.1.statusHistory.getD []).length)) =
      some (Status.pending, 1) := by
  obtain ⟨i', h1, h2, h3, _⟩ :=
    C6_idempotent_update_appends_nothing [] [] demoPending "1"
      { status := some Status.pending } (some "S") none 9
      (by simp) rfl rfl
  simp only [List.nil_append] at h1
  rw [h1]
  simp [h2, h3]
  decide

/-- C10 counterexample: on a stored issue with status `resolved` and
`resolvedAt` unset, an update object containing only the (unchanged)
status field additionally sets `resolvedAt` — a field the update did not
carry — so the merge is not limited to the given fields. -/
theorem C10_cex :
    demoResolvedNoTS.resolvedAt = none ∧
    ((updateIssue [demoResolvedNoTS] "1" { status := some Status.resolved }
        none none 11).map fun r => r.1.resolvedAt) = some (some 11) := by
  decide

/-- C10 amended: when the update's status field is absent or equal to
the current status, `updateIssue` succeeds, appends no history entry,
sets `updatedAt`, merges exactly the given fields — except that it
additionally sets `resolvedAt := now` when the update's status is
`resolved` (necessarily equal to the current status here) and
`resolvedAt` was unset — and leaves every other issue in the store
unchanged. -/
theorem C10_frame_update
    (pre post : List Issue) (i : Issue) (issueId : String)
    (u : IssueUpdate) (changedBy note : Option String) (now : Nat)
    (hpre : ∀ j ∈ pre, j.id ≠ issueId) (hid : i.id = issueId)
    (hu : u.status = none ∨ u.status = some i.status) :
    ∃ i', updateIssue (pre ++ i :: post) issueId u changedBy note now =
        some (i', pre ++ i' :: post) ∧
      i'.status = i.status ∧
      i'.priority = u.priority.getD i.priority ∧
      i'.staffNotes = (match u.staffNotes with
        | some v => some v
        | none => i.staffNotes) ∧
      i'.department = (match u.department with
        | some v => some v
        | none => i.department) ∧
      i'.statusHistory.getD [] = i.statusHistory.getD [] ∧
      i'.updatedAt = now ∧
      i'.resolvedAt = (if u.status = some Status.resolved ∧
          i.resolvedAt = none then some now else i.resolvedAt) ∧
      i'.id = i.id ∧ i'.title = i.title ∧ i'.description = i.description ∧
      i'.category = i.category ∧ i'.createdAt = i.createdAt ∧
      i'.residentConfirmed = i.residentConfirmed ∧
      i'.residentRejected = i.residentRejected ∧
      i'.residentFeedback = i.residentFeedback ∧
      i'.assignedToEmployee = i.assignedToEmployee ∧
      i'.viewCount = i.viewCount := by
  refine ⟨_, replaceFirst_append issueId _ pre i post hpre hid, ?_⟩
  rcases hu with hu | hu <;>
    simp [applyUpdates, hu, hid]

/-- C10 witness: a two-issue store; the update refreshes only the given
fields of issue "1" and returns the other issue's slot untouched. -/
theorem C10_frame_update_witness :
    ((updateIssue [demoPending, { demoPending with id := "2" }] "1"
        { staffNotes := some "checked" } none none 9).map fun r =>
      (r.1.staffNotes, r.1.status, (r.1.statusHistory.getD []).length,
        r.2.length)) = some (some "checked", Status.pending, 1, 2) := by
  obtain ⟨i', h1, hst, _, hsn, _, hh, _⟩ :=
    C10_frame_update [] [{ demoPending with id := "2" }] demoPending "1"
      { staffNotes := some "checked" } none none 9
      (by simp) rfl (Or.inl rfl)
  simp only [List.nil_append] at h1
  rw [h1]
  simp [hst, hsn, hh]
  decide

/-- C3 counterexample: on a stored issue whose status is `pending` (not
`resolved`), `confirmResolution` succeeds and records the confirmation,
and `rejectResolution` with empty feedback also succeeds, storing the
empty feedback — neither precondition failure exists in the code. -/
theorem C3_cex :
    demoPending.status ≠ Status.resolved ∧
    ((confirmResolution [demoPending] "1" "Jane" 7).map fun r =>
      (r.1.residentConfirmed, r.1.status,
        (r.1.statusHistory.getD []).length)) =
      some (some true, Status.pending, 2) ∧
    ((rejectResolution [demoPending] "1" "Jane" "" 7).map fun r =>
      (r.1.residentFeedback, r.1.status)) =
      some (some "", Status.inProgress) := by
  decide

/-- C3 amended: neither resident operation checks a precondition. For
every stored issue of any status, `confirmResolution` succeeds and sets
`residentConfirmed`, and `rejectResolution` succeeds for every feedback
string, including the empty one, always forcing `in-progress`. -/
theorem C3_resident_ops_unchecked
    (pre post : List Issue) (i : Issue) (issueId name : String)
    (now : Nat)
    (hpre : ∀ j ∈ pre, j.id ≠ issueId) (hid : i.id = issueId) :
    (∃ i', confirmResolution (pre ++ i :: post) issueId name now =
        some (i', pre ++ i' :: post) ∧
      i'.residentConfirmed = some true ∧ i'.status = i.status) ∧
    (∀ feedback : String,
      ∃ i', rejectResolution (pre ++ i :: post) issueId name feedback now =
          some (i', pre ++ i' :: post) ∧
        i'.residentFeedback = some feedback ∧
        i'.status = Status.inProgress) := by
  refine ⟨⟨_, replaceFirst_append issueId _ pre i post hpre hid, rfl, rfl⟩,
    fun feedback =>
      ⟨_, replaceFirst_append issueId _ pre i post hpre hid, rfl, rfl⟩⟩

/-- C3 witness: both resident operations applied to the pending
fixture. -/
theorem C3_resident_ops_unchecked_witness :
    ((confirmResolution [demoPending] "1" "Jane" 7).map fun r =>
      r.1.residentConfirmed) = some (some true) ∧
    ((rejectResolution [demoPending] "1" "Jane" "" 7).map fun r =>
      r.1.residentFeedback) = some (some "") := by
  obtain ⟨⟨ic, hc1, hc2, _⟩, hr⟩ :=
    C3_resident_ops_unchecked [] [] demoPending "1" "Jane" 7 (by simp) rfl
  obtain ⟨ir, hr1, hr2, _⟩ := hr ""
  simp only [List.nil_append] at hc1 hr1
  rw [hc1, hr1]
  simp [hc2, hr2]

/-- C5: on a stored issue whose status is `resolved`, `rejectResolution`
forces status to `in-progress`, sets `residentRejected` and the given
feedback, appends exactly one history entry (recording the feedback
text), and leaves `resolvedAt` at its original value. -/
theorem C5_rejectResolution_reopens
    (pre post : List Issue) (i : Issue) (issueId name feedback : String)
    (now : Nat)
    (hpre : ∀ j ∈ pre, j.id ≠ issueId) (hid : i.id = issueId)
    (_hres : i.status = Status.resolved) :
    ∃ i', rejectResolution (pre ++ i :: post) issueId name feedback now =
        some (i', pre ++ i' :: post) ∧
      i'.status = Status.inProgress ∧
      i'.residentRejected = some true ∧
      i'.residentFeedback = some feedback ∧
      i'.statusHistory.getD [] = i.statusHistory.getD [] ++
        [{ status := Status.inProgress, changedBy := name, changedAt := now,
           note := some ("Resident reported issue not resolved: " ++
             feedback) }] ∧
      i'.resolvedAt = i.resolvedAt := by
  exact ⟨_, replaceFirst_append issueId _ pre i post hpre hid,
    rfl, rfl, rfl, rfl, rfl⟩

/-- C5 witness: Scenario C on the resolved fixture — the history gains
one entry and `resolvedAt` keeps its original value. -/
theorem C5_rejectResolution_reopens_witness :
    ((rejectResolution [demoResolved] "1" "Jane" "Still broken" 9).map
      fun r => (r.1.status, r.1.residentRejected, r.1.residentFeedback,
        (r.1.statusHistory.getD []).length, r.1.resolvedAt)) =
      some (Status.inProgress, some true, some "Still broken", 3, some 3) := by
  obtain ⟨i', h1, h2, h3, h4, h5, h6⟩ :=
    C5_rejectResolution_reopens [] [] demoResolved "1" "Jane" "Still broken"
      9 (by simp) rfl rfl
  simp only [List.nil_append] at h1
  rw [h1]
  simp [h2, h3, h4, h5, h6]
  decide

/-- C2 counterexample: the `water` employee e1 is not in the candidate
pool for `roads`, yet `assignIssue` to `roads`/e1 succeeds and appends a
history entry — neither the claimed `InvalidAssignmentError` nor the
claimed unchanged store occurs. -/
theorem C2_cex :
    getEmployeesByDepartment [demoEmpWater] "roads" = [] ∧
    ((assignIssue [demoPending] "1" "roads" "e1" "E One" "S" 5).map
      fun r => (r.1.assignedToEmployee, r.1.department,
        (r.1.statusHistory.getD []).length)) =
      some (some "e1", some "roads", 2) := by
  decide

/-- C2 amended: `assignIssue` never consults the employee directory.
For every stored issue and every employee id — even one outside the
candidate pool `getEmployeesByDepartment` returns for the department —
the assignment succeeds, records the assignment fields, leaves the
status unchanged and appends exactly one history entry. -/
theorem C2_assign_ignores_pool
    (users : List User) (pre post : List Issue) (i : Issue)
    (issueId dept empId empName assignedBy : String) (now : Nat)
    (hpre : ∀ j ∈ pre, j.id ≠ issueId) (hid : i.id = issueId)
    (_hpool : ∀ u ∈ getEmployeesByDepartment users dept, u.id ≠ empId) :
    ∃ i', assignIssue (pre ++ i :: post) issueId dept empId empName
        assignedBy now = some (i', pre ++ i' :: post) ∧
      i'.assignedToEmployee = some empId ∧
      i'.assignedToEmployeeName = some empName ∧
      i'.department = some dept ∧
      i'.status = i.status ∧
      i'.statusHistory.getD [] = i.statusHistory.getD [] ++
        [{ status := i.status, changedBy := assignedBy, changedAt := now,
           note := some ("Assigned to " ++ dept ++ " department - " ++
             empName) }] := by
  exact ⟨_, replaceFirst_append issueId _ pre i post hpre hid,
    rfl, rfl, rfl, rfl, rfl⟩

/-- C2 witness: Scenario B input — a pending issue assigned to `roads`
with the `water` employee e1. -/
theorem C2_assign_ignores_pool_witness :
    ((assignIssue [demoPending] "1" "roads" "e1" "E One" "S" 5).map
      fun r => (r.1.assignedToEmployee, r.1.status)) =
      some (some "e1", Status.pending) := by
  obtain ⟨i', h1, h2, _, _, h5, _⟩ :=
    C2_assign_ignores_pool [demoEmpWater] [] [] demoPending "1" "roads"
      "e1" "E One" "S" 5 (by simp) rfl (by decide)
  simp only [List.nil_append] at h1
  rw [h1]
  simp [h2, h5]
  decide

/-! Traces of store mutations, for the history-length invariant. -/

/-- One store mutation, as dispatched by the dashboard pages. -/
inductive Op where
  | update (issueId : String) (updates : IssueUpdate)
      (changedBy note : Option String) (now : Nat)
  | assign (issueId department employeeId employeeName assignedBy : String)
      (now : Nat)
  | confirm (issueId residentName : String) (now : Nat)
  | reject (issueId residentName feedback : String) (now : Nat)
deriving DecidableEq, Repr

namespace storageUtils

/-- Running one mutation against the stored list: the unknown-id
(`null`) case writes nothing back. -/
def applyOp (issues : List Issue) : Op → List Issue
  | .update issueId u changedBy note now =>
    match updateIssue issues issueId u changedBy note now with
    | some r => r.2
    | none => issues
  | .assign issueId dept empId empName assignedBy now =>
    match assignIssue issues issueId dept empId empName assignedBy now with
    | some r => r.2
    | none => issues
  | .confirm issueId residentName now =>
    match confirmResolution issues issueId residentName now with
    | some r => r.2
    | none => issues
  | .reject issueId residentName feedback now =>
    match rejectResolution issues issueId residentName feedback now with
    | some r => r.2
    | none => issues

/-- A whole trace of mutations. -/
def runOps (issues : List Issue) (ops : List Op) : List Issue :=
  ops.foldl applyOp issues

/-- The issue a given id denotes: the first stored record with that id
(what `findIndex`/`find` locate). -/
def findFirst (issues : List Issue) (issueId : String) : Option Issue :=
  issues.find? fun i => decide (i.id = issueId)

/-- The id an operation addresses. -/
def opTarget : Op → String
  | .update issueId _ _ _ _ => issueId
  | .assign issueId _ _ _ _ _ => issueId
  | .confirm issueId _ _ => issueId
  | .reject issueId _ _ _ => issueId

/-- The record transformation an operation applies to its target. -/
def opFun : Op → Issue → Issue
  | .update _ updates changedBy note now => fun old =>
    let hist := old.statusHistory.getD []
    let hist' := match updates.status with
      | some ns =>
        if ns = old.status then hist
        else hist ++ [{ status := ns, changedBy := changedBy.getD "System",
                        changedAt := now, note := note }]
      | none => hist
    { applyUpdates old updates with
      statusHistory := some hist'
      updatedAt := now
      resolvedAt :=
        if updates.status = some Status.resolved ∧ old.resolvedAt = none
        then some now else old.resolvedAt }
  | .assign _ department employeeId employeeName assignedBy now => fun old =>
    let hist := old.statusHistory.getD [] ++
      [{ status := old.status, changedBy := assignedBy, changedAt := now,
         note := some ("Assigned to " ++ department ++ " department - " ++
                       employeeName) }]
    { old with
      department := some department
      assignedToEmployee := some employeeId
      assignedToEmployeeName := some employeeName
      assignedBy := some assignedBy
      assignedAt := some now
      statusHistory := some hist
      updatedAt := now }
  | .confirm _ residentName now => fun old =>
    let hist := old.statusHistory.getD [] ++
      [{ status := old.status, changedBy := residentName, changedAt := now,
         note := some "Resident confirmed issue has been resolved" }]
    { old with
      residentConfirmed := some true
      residentConfirmedAt := some now
      statusHistory := some hist
      updatedAt := now }
  | .reject _ residentName feedback now => fun old =>
    let hist := old.statusHistory.getD [] ++
      [{ status := Status.inProgress, changedBy := residentName,
         changedAt := now,
         note := some ("Resident reported issue not resolved: " ++ feedback) }]
    { old with
      status := Status.inProgress
      residentRejected := some true
      residentRejectedAt := some now
      residentFeedback := some feedback
      statusHistory := some hist
      updatedAt := now }

theorem applyOp_eq (issues : List Issue) (op : Op) :
    applyOp issues op =
      match replaceFirst (opTarget op) (opFun op) issues with
      | some r => r.2
      | none => issues := by
  cases op <;> rfl

/-- How many history entries an operation appends to the record it
transforms. -/
def histDelta : Op → Issue → Nat
  | .update _ updates _ _ _ => fun old =>
    match updates.status with
    | some ns => if ns = old.status then 0 else 1
    | none => 0
  | .assign _ _ _ _ _ _ => fun _ => 1
  | .confirm _ _ _ => fun _ => 1
  | .reject _ _ _ _ => fun _ => 1

/-- How many history entries an operation appends to the issue a given
id denotes in a given store (0 when the op addresses another id or the
id is absent). -/
def appendsTo (issues : List Issue) (issueId : String) (op : Op) : Nat :=
  match findFirst issues issueId with
  | some i => if opTarget op = issueId then histDelta op i else 0
  | none => 0

/-- Total history entries a trace appends to the issue a given id
denotes, threading the store through the trace. -/
def appendCount (issues : List Issue) (issueId : String) : List Op → Nat
  | [] => 0
  | op :: ops =>
    appendsTo issues issueId op + appendCount (applyOp issues op) issueId ops

theorem opFun_id (op : Op) (i : Issue) : (opFun op i).id = i.id := by
  cases op <;> simp [opFun, applyUpdates]

theorem opFun_hist (op : Op) (i : Issue) :
    ∃ es, (opFun op i).statusHistory.getD [] =
        i.statusHistory.getD [] ++ es ∧ es.length = histDelta op i := by
  cases op with
  | update issueId u cb note now =>
    cases hu : u.status with
    | none => exact ⟨[], by simp [opFun, hu], by simp [histDelta, hu]⟩
    | some ns =>
      by_cases hns : ns = i.status
      · exact ⟨[], by simp [opFun, hu, hns], by simp [histDelta, hu, hns]⟩
      · exact ⟨[{ status := ns, changedBy := cb.getD "System",
                  changedAt := now, note := note }],
          by simp [opFun, hu, hns], by simp [histDelta, hu, hns]⟩
  | assign issueId dept empId empName ab now =>
    exact ⟨[{ status := i.status, changedBy := ab, changedAt := now,
              note := some ("Assigned to " ++ dept ++ " department - " ++
                empName) }],
      by simp [opFun], by simp [histDelta]⟩
  | confirm issueId name now =>
    exact ⟨[{ status := i.status, changedBy := name, changedAt := now,
              note := some "Resident confirmed issue has been resolved" }],
      by simp [opFun], by simp [histDelta]⟩
  | reject issueId name feedback now =>
    exact ⟨[{ status := Status.inProgress, changedBy := name,
              changedAt := now,
              note := some ("Resident reported issue not resolved: " ++
                feedback) }],
      by simp [opFun], by simp [histDelta]⟩

theorem replaceFirst_eq_none (issueId : String) (f : Issue → Issue)
    (issues : List Issue) :
    replaceFirst issueId f issues = none ↔
      findFirst issues issueId = none := by
  induction issues with
  | nil => simp [replaceFirst, findFirst]
  | cons a as ih =>
    by_cases ha : a.id = issueId
    · simp [replaceFirst, findFirst, ha]
    · have hf : findFirst (a :: as) issueId = findFirst as issueId := by
        simp [findFirst, ha]
      simp only [replaceFirst, if_neg ha, hf]
      cases h : replaceFirst issueId f as with
      | none => exact ⟨fun _ => ih.mp h, fun _ => rfl⟩
      | some r =>
        obtain ⟨u, rest'⟩ := r
        constructor
        · intro hc; simp at hc
        · intro hn; rw [ih.mpr hn] at h; cases h

theorem findFirst_after_replace (tid qid : String) (f : Issue → Issue)
    (hf : ∀ i, (f i).id = i.id) (issues : List Issue) :
    findFirst (match replaceFirst tid f issues with
               | some r => r.2
               | none => issues) qid =
      if tid = qid then (findFirst issues qid).map f
      else findFirst issues qid := by
  induction issues with
  | nil => simp [replaceFirst, findFirst]
  | cons a as ih =>
    by_cases ha : a.id = tid
    · simp only [replaceFirst, if_pos ha]
      by_cases hq : a.id = qid
      · have htq : tid = qid := ha.symm.trans hq
        simp [findFirst, hf, hq, htq, ha]
      · have htq : tid ≠ qid := fun hh => hq (ha.trans hh)
        simp [findFirst, hf, hq, htq]
    · simp only [replaceFirst, if_neg ha]
      cases h : replaceFirst tid f as with
      | none =>
        have hnone : findFirst as tid = none :=
          (replaceFirst_eq_none tid f as).mp h
        by_cases htq : tid = qid
        · subst htq
          simp only [findFirst] at hnone ⊢
          simp [ha, hnone]
        · simp [htq]
      | some r =>
        obtain ⟨u, rest'⟩ := r
        simp only [h] at ih
        by_cases hq : a.id = qid
        · have htq : tid ≠ qid := fun hh => ha (hq.trans hh.symm)
          simp [findFirst, hq, htq]
        · simpa [findFirst, hq] using ih

theorem findFirst_applyOp (op : Op) (issues : List Issue) (qid : String) :
    findFirst (applyOp issues op) qid =
      if opTarget op = qid then (findFirst issues qid).map (opFun op)
      else findFirst issues qid := by
  rw [applyOp_eq]
  exact findFirst_after_replace (opTarget op) qid (opFun op) (opFun_id op)
    issues

theorem runOps_hist (qid : String) :
    ∀ (ops : List Op) (issues : List Issue) (j : Issue),
      findFirst issues qid = some j →
      ∃ j', findFirst (runOps issues ops) qid = some j' ∧
        ∃ es, j'.statusHistory.getD [] = j.statusHistory.getD [] ++ es ∧
          es.length = appendCount issues qid ops := by
  intro ops
  induction ops with
  | nil =>
    intro issues j hj
    exact ⟨j, hj, [], by simp, by simp [appendCount]⟩
  | cons op ops ih =>
    intro issues j hj
    have hstep := findFirst_applyOp op issues qid
    by_cases ht : opTarget op = qid
    · rw [if_pos ht, hj] at hstep
      obtain ⟨j', hj', es1, he1, hl1⟩ := ih (applyOp issues op) (opFun op j)
        hstep
      obtain ⟨es0, he0, hl0⟩ := opFun_hist op j
      refine ⟨j', by simpa [runOps] using hj', es0 ++ es1, ?_, ?_⟩
      · rw [he1, he0, List.append_assoc]
      · rw [List.length_append, hl0, hl1, appendCount]
        simp [appendsTo, hj, ht]
    · rw [if_neg ht, hj] at hstep
      obtain ⟨j', hj', es1, he1, hl1⟩ := ih (applyOp issues op) j hstep
      refine ⟨j', by simpa [runOps] using hj', es1, he1, ?_⟩
      rw [hl1, appendCount]
      simp [appendsTo, hj, ht]

theorem findFirst_append_new (issues0 : List Issue) (n : Issue)
    (freshId : String) (hfresh : ∀ j ∈ issues0, j.id ≠ freshId)
    (hn : n.id = freshId) :
    findFirst (issues0 ++ [n]) freshId = some n := by
  induction issues0 with
  | nil => simp [findFirst, hn]
  | cons a as ih =>
    have ha : a.id ≠ freshId := hfresh a (List.mem_cons_self a as)
    have ih' := ih fun j hj => hfresh j (List.mem_cons_of_mem a hj)
    simp only [findFirst] at ih' ⊢
    simpa [ha] using ih'

end storageUtils

/-- A minimal creation input (status `pending`, as the create page
submits). -/
def demoInput : Issue := { id := "", category := "roads", status := .pending }

/-- C4 counterexample: after creating an issue and assigning it (one
mutation that changes no status — both history entries carry `pending`
and the status is still `pending`), the history length is 2, while the
claim's `1 + number of status-changing mutations` is 1. -/
theorem C4_cex :
    ((findFirst (runOps (addIssue [] demoInput "1" 0).2
        [Op.assign "1" "roads" "e1" "E One" "S" 5]) "1").map fun j =>
      ((j.statusHistory.getD []).length, j.status,
        (j.statusHistory.getD []).map fun e => e.status)) =
      some (2, Status.pending, [Status.pending, Status.pending]) := by
  decide

/-- C4 amended: for an issue created by `addIssue` under a fresh id and
any subsequent trace of store mutations, the first history entry is the
seeded creation entry (so `statusHistory[0].status` is the status at
creation), and the history length is `1 +` the number of
history-appending mutations applied to that issue — where `updateIssue`
appends exactly when it carries a status different from the current
one, while `assignIssue`, `confirmResolution` and `rejectResolution`
always append (even though the first two change no status). -/
theorem C4_history_length
    (issues0 : List Issue) (input : Issue) (freshId : String) (now : Nat)
    (ops : List Op)
    (hfresh : ∀ j ∈ issues0, j.id ≠ freshId) :
    ∃ j, findFirst (runOps (addIssue issues0 input freshId now).2 ops)
        freshId = some j ∧
      (j.statusHistory.getD []).head? =
        some { status := input.status,
               changedBy := "System",
               changedAt := now,
               note := some "Report created" } ∧
      (j.statusHistory.getD []).length =
        1 + appendCount (addIssue issues0 input freshId now).2 freshId
          ops := by
  have hfind : findFirst (addIssue issues0 input freshId now).2 freshId =
      some { input with
             id := freshId, createdAt := now, updatedAt := now,
             viewCount := some 0,
             statusHistory := some [{ status := input.status,
                                      changedBy := "System",
                                      changedAt := now,
                                      note := some "Report created" }] } :=
    findFirst_append_new issues0 _ freshId hfresh rfl
  obtain ⟨j, hj, es, he, hl⟩ := runOps_hist freshId ops _ _ hfind
  refine ⟨j, hj, ?_, ?_⟩
  · rw [he]
    simp
  · rw [he]
    simp [hl, Nat.add_comm]

/-- C4 witness: the created-then-assigned fixture, counted by the
amended formula. -/
theorem C4_history_length_witness :
    ((findFirst (runOps (addIssue [] demoInput "1" 0).2
        [Op.assign "1" "roads" "e1" "E One" "S" 5]) "1").map fun j =>
      (j.statusHistory.getD []).length) = some 2 := by
  obtain ⟨j, hj, hh, hl⟩ := C4_history_length [] demoInput "1" 0
    [Op.assign "1" "roads" "e1" "E One" "S" 5] (by simp)
  rw [hj]
  have hlen : (j.statusHistory.getD []).length = 2 := by rw [hl]; decide
  simp [hlen]

/-! The keyword classifier: argmax characterization. -/

/-- The highest score in a scored table. -/
def maxScore : List (String × List String) → Nat
  | [] => 0
  | ck :: l => max ck.2.length (maxScore l)

/-- Modelled from the spec's words: the category with the highest
keyword-overlap count, ties broken by the enumeration order of
`categoryPatterns` (roads first, other last).  Used only to compare the
implementation against the specified selection rule. -/
def specBestCategory (title description : String) : String :=
  let scored := scoredPatterns title description
  ((scored.find? fun ck => ck.2.length == maxScore scored).map
    fun ck => ck.1).getD "other"

theorem bestFold_nil (acc : String × Nat × List String) :
    bestFold [] acc = acc := rfl

theorem bestFold_cons (x : String × List String)
    (xs : List (String × List String)) (acc : String × Nat × List String) :
    bestFold (x :: xs) acc =
      bestFold xs
        (if acc.2.1 < x.2.length then (x.1, x.2.length, x.2) else acc) := rfl

theorem le_maxScore (l : List (String × List String)) :
    ∀ ck ∈ l, ck.2.length ≤ maxScore l := by
  induction l with
  | nil => simp
  | cons x xs ih =>
    intro ck hck
    rcases List.mem_cons.mp hck with rfl | hxs
    · simp [maxScore]
    · have := ih ck hxs
      simp only [maxScore]
      omega

theorem bestFold_of_le (l : List (String × List String)) :
    ∀ acc, (∀ ck ∈ l, ck.2.length ≤ acc.2.1) → bestFold l acc = acc := by
  induction l with
  | nil => intro acc _; rfl
  | cons x xs ih =>
    intro acc h
    have hx := h x (List.mem_cons_self x xs)
    rw [bestFold_cons, if_neg (by omega)]
    exact ih acc fun ck hck => h ck (List.mem_cons_of_mem x hck)

theorem bestFold_score (l : List (String × List String)) :
    ∀ acc, (bestFold l acc).2.1 = max acc.2.1 (maxScore l) := by
  induction l with
  | nil => intro acc; simp [bestFold_nil, maxScore]
  | cons x xs ih =>
    intro acc
    rw [bestFold_cons, ih]
    by_cases h : acc.2.1 < x.2.length <;> simp [h, maxScore] <;> omega

theorem bestFold_find (l : List (String × List String)) :
    ∀ acc, acc.2.1 < maxScore l →
      ∃ ck, l.find? (fun y => y.2.length == maxScore l) = some ck ∧
        bestFold l acc = (ck.1, ck.2.length, ck.2) := by
  induction l with
  | nil => intro acc h; simp [maxScore] at h
  | cons x xs ih =>
    intro acc h
    by_cases hx : x.2.length = maxScore (x :: xs)
    · refine ⟨x, ?_, ?_⟩
      · have hpx : (x.2.length == maxScore (x :: xs)) = true := by simp [hx]
        simp [List.find?, hpx]
      · rw [bestFold_cons, if_pos (by rw [← hx] at h; exact h)]
        apply bestFold_of_le
        intro ck hck
        have h1 := le_maxScore xs ck hck
        have h2 : maxScore xs ≤ maxScore (x :: xs) := by
          simp only [maxScore]; omega
        simp only []
        omega
    · have hxlt : x.2.length < maxScore xs := by
        simp only [maxScore] at hx ⊢
        omega
      have hM : maxScore (x :: xs) = maxScore xs := by
        simp only [maxScore]; omega
      rw [bestFold_cons]
      have hacc' : (if acc.2.1 < x.2.length then (x.1, x.2.length, x.2)
          else acc).2.1 < maxScore xs := by
        rw [hM] at h
        by_cases hc : acc.2.1 < x.2.length <;> simp [hc] <;> omega
      obtain ⟨ck, hfind, hbest⟩ := ih _ hacc'
      refine ⟨ck, ?_, hbest⟩
      have hMfun : (fun y : String × List String =>
          y.2.length == maxScore (x :: xs)) =
          (fun y => y.2.length == maxScore xs) := by rw [hM]
      rw [hMfun]
      have hpx : (x.2.length == maxScore xs) = false := by
        simp only [beq_eq_false_iff_ne, ne_eq]
        omega
      simp only [List.find?, hpx]
      exact hfind

/-- C7 counterexample: on a text that matches no keyword, every
category ties at the highest overlap count 0, so the claimed tie-break
(enumeration order, roads first) prescribes `roads` — but the code
returns its initial accumulator `other` (the strict `>` never fires). -/
theorem C7_cex :
    maxScore (scoredPatterns "x" "y") = 0 ∧
    specBestCategory "x" "y" = "roads" ∧
    (categorizeIssueKeywordBased "x" "y").category = "other" ∧
    "other" ≠ "roads" := by
  decide

/-- C7 amended: whenever at least one keyword matches, the classifier
returns the category with the highest keyword-overlap count, ties
broken by the enumeration order of `categoryPatterns`
(roads>water>electricity>waste>safety>parks>other); when no keyword
matches it returns `other` with confidence 0; the confidence is always
the best score over 5, capped at 1. -/
theorem C7_keyword_classifier (title description : String) :
    (0 < maxScore (scoredPatterns title description) →
      (categorizeIssueKeywordBased title description).category =
        specBestCategory title description) ∧
    (maxScore (scoredPatterns title description) = 0 →
      categorizeIssueKeywordBased title description =
        { category := "other", confidence := 0, keywords := [] }) ∧
    (categorizeIssueKeywordBased title description).confidence =
      min ((maxScore (scoredPatterns title description) : ℚ) / 5) 1 := by
  refine ⟨?_, ?_, ?_⟩
  · intro hm
    obtain ⟨ck, hfind, hbest⟩ :=
      bestFold_find (scoredPatterns title description) ("other", 0, []) hm
    simp [categorizeIssueKeywordBased, hbest, specBestCategory, hfind]
  · intro hm
    have hall : ∀ ck ∈ scoredPatterns title description,
        ck.2.length ≤ (("other", 0, []) : String × Nat × List String).2.1 := by
      intro ck hck
      have := le_maxScore (scoredPatterns title description) ck hck
      omega
    have hb := bestFold_of_le (scoredPatterns title description)
      ("other", 0, []) hall
    simp [categorizeIssueKeywordBased, hb]
  · have hs := bestFold_score (scoredPatterns title description)
      ("other", 0, [])
    simp only [categorizeIssueKeywordBased, hs]
    simp

/-- C7 witness: Scenario A — "Burst pipe" / "Water flooding street"
scores 4 for `water` (water, pipe, burst, flood), so the classifier
returns `water` with confidence 4/5 ≥ 0.6. -/
theorem C7_keyword_classifier_witness :
    (categorizeIssueKeywordBased "Burst pipe"
      "Water flooding street").category = "water" ∧
    (3/5 : ℚ) ≤ (categorizeIssueKeywordBased "Burst pipe"
      "Water flooding street").confidence := by
  obtain ⟨h1, _, h3⟩ :=
    C7_keyword_classifier "Burst pipe" "Water flooding street"
  have hm : maxScore (scoredPatterns "Burst pipe" "Water flooding street")
      = 4 := by decide
  constructor
  · rw [h1 (by rw [hm]; norm_num)]
    decide
  · rw [h3, hm]
    norm_num [min_def]

/-! Analytics: average resolution time. -/

open analyticsUtils

/-- Resolved in exactly one day. -/
def demoRes1 : Issue :=
  { id := "1", category := "water", status := .resolved, createdAt := 0,
    updatedAt := 86400000 }

/-- Resolved in one day plus one millisecond (ceil: two days). -/
def demoRes2 : Issue :=
  { id := "2", category := "roads", status := .resolved, createdAt := 0,
    updatedAt := 86400001 }

theorem filterMap_calc_resolved (l : List Issue)
    (hl : ∀ i ∈ l, i.status = Status.resolved) :
    l.filterMap calculateResolutionTime =
      l.map fun i => (((i.updatedAt : ℤ) - (i.createdAt : ℤ)).natAbs +
        (msPerDay - 1)) / msPerDay := by
  induction l with
  | nil => rfl
  | cons x xs ih =>
    have hx := hl x (List.mem_cons_self x xs)
    have ih' := ih fun i hi => hl i (List.mem_cons_of_mem x hi)
    simp [List.filterMap_cons, calculateResolutionTime, hx, ih']

/-- C9 counterexample: two resolved issues whose per-issue ceil times
are 1 and 2 days; the mean is 3/2, but the code returns
`Math.round(3/2) = 2` — the rounding step is absent from the claim. -/
theorem C9_cex :
    ([demoRes1, demoRes2].filter fun i =>
      decide (i.status = Status.resolved)).filterMap
        calculateResolutionTime = [1, 2] ∧
    avgResolutionTime [demoRes1, demoRes2] = 2 ∧
    ((1 + 2 : ℚ) / 2) ≠ ((2 : ℤ) : ℚ) := by
  refine ⟨by decide, ?_, by norm_num⟩
  have h : ([demoRes1, demoRes2].filter fun i =>
      decide (i.status = Status.resolved)).filterMap
        calculateResolutionTime = [1, 2] := by decide
  simp only [avgResolutionTime, h]
  norm_num [jsRound]

/-- C9 amended: avgResolutionTime equals `Math.round` of the mean, over
the issues with status `resolved`, of `ceil(|updatedAt - createdAt| in
days)` — not the mean itself — and equals 0 when there is no resolved
issue. -/
theorem C9_avg_resolution (issues : List Issue) :
    avgResolutionTime issues =
      if (issues.filter fun i => decide (i.status = Status.resolved)) = []
      then 0
      else jsRound
        ((((issues.filter fun i => decide (i.status = Status.resolved)).map
            fun i => (((i.updatedAt : ℤ) - (i.createdAt : ℤ)).natAbs +
              (msPerDay - 1)) / msPerDay).sum : ℚ) /
          (((issues.filter fun i =>
            decide (i.status = Status.resolved)).length : ℚ))) := by
  have hmem : ∀ i ∈ issues.filter fun i =>
      decide (i.status = Status.resolved), i.status = Status.resolved := by
    intro i hi
    simpa using (List.mem_filter.mp hi).2
  have hfm := filterMap_calc_resolved _ hmem
  simp only [avgResolutionTime, hfm, List.length_map]
  rcases h : issues.filter fun i => decide (i.status = Status.resolved) with
    _ | ⟨a, l⟩
  · simp
  · simp

/-- C9 witness: the empty store has no resolved issue and the average
is the number 0, not an error value. -/
theorem C9_avg_resolution_witness : avgResolutionTime [] = 0 := by
  have h := C9_avg_resolution []
  simpa using h

/-! Analytics: category breakdown. -/

/-- The count stored under key `c` (`counts[c] || 0`). -/
def countOf (l : List (String × Nat)) (c : String) : Nat :=
  ((l.find? fun p => p.1 == c).map Prod.snd).getD 0

theorem countOf_cons_eq (c : String) (n : Nat) (ps : List (String × Nat)) :
    countOf ((c, n) :: ps) c = n := by
  simp [countOf, List.find?]

theorem countOf_cons_ne (d : String) (n : Nat) (ps : List (String × Nat))
    (c : String) (h : d ≠ c) : countOf ((d, n) :: ps) c = countOf ps c := by
  have hb : (d == c) = false := by simp [h]
  simp [countOf, List.find?, hb]

theorem countOf_bump (cat c : String) (l : List (String × Nat)) :
    countOf (bump cat l) c =
      countOf l c + (if c = cat then 1 else 0) := by
  induction l with
  | nil =>
    by_cases h : c = cat
    · subst h
      simp [bump, countOf_cons_eq, countOf]
    · rw [show bump cat [] = [(cat, 1)] from rfl,
        countOf_cons_ne cat 1 [] c (Ne.symm h)]
      simp [countOf, h]
  | cons p ps ih =>
    obtain ⟨d, n⟩ := p
    by_cases hd : d = cat
    · subst hd
      have hb : bump d ((d, n) :: ps) = (d, n + 1) :: ps := by simp [bump]
      rw [hb]
      by_cases hc : c = d
      · rw [hc, countOf_cons_eq, countOf_cons_eq, if_pos rfl]
      · rw [countOf_cons_ne d (n + 1) ps c fun h => hc h.symm,
          countOf_cons_ne d n ps c fun h => hc h.symm]
        simp [hc]
    · have hb : bump cat ((d, n) :: ps) = (d, n) :: bump cat ps := by
        simp [bump, hd]
      rw [hb]
      by_cases hc : c = d
      · rw [hc, countOf_cons_eq, countOf_cons_eq, if_neg (hc ▸ hd)]
        omega
      · rw [countOf_cons_ne d n _ c fun h => hc h.symm,
          countOf_cons_ne d n ps c fun h => hc h.symm, ih]

theorem bump_keys_mem (cat c : String) (l : List (String × Nat)) :
    c ∈ (bump cat l).map Prod.fst ↔
      c ∈ l.map Prod.fst ∨ c = cat := by
  induction l with
  | nil => simp [bump]
  | cons p ps ih =>
    obtain ⟨d, n⟩ := p
    by_cases hd : d = cat
    · subst hd
      have hb : bump d ((d, n) :: ps) = (d, n + 1) :: ps := by simp [bump]
      rw [hb]
      simp
      tauto
    · have hb : bump cat ((d, n) :: ps) = (d, n) :: bump cat ps := by
        simp [bump, hd]
      rw [hb]
      simp only [List.map_cons, List.mem_cons]
      rw [ih]
      tauto

theorem bump_keys_of_mem (cat : String) (l : List (String × Nat))
    (h : cat ∈ l.map Prod.fst) :
    (bump cat l).map Prod.fst = l.map Prod.fst := by
  induction l with
  | nil => simp at h
  | cons p ps ih =>
    obtain ⟨d, n⟩ := p
    by_cases hd : d = cat
    · subst hd
      have hb : bump d ((d, n) :: ps) = (d, n + 1) :: ps := by simp [bump]
      rw [hb]
      simp
    · have hb : bump cat ((d, n) :: ps) = (d, n) :: bump cat ps := by
        simp [bump, hd]
      rw [hb]
      simp only [List.map_cons, List.mem_cons] at h
      rcases h with h | h
      · exact absurd h.symm hd
      · simp [ih h]

theorem bump_keys_of_not_mem (cat : String) (l : List (String × Nat))
    (h : cat ∉ l.map Prod.fst) :
    (bump cat l).map Prod.fst = l.map Prod.fst ++ [cat] := by
  induction l with
  | nil => simp [bump]
  | cons p ps ih =>
    obtain ⟨d, n⟩ := p
    simp only [List.map_cons, List.mem_cons] at h
    push_neg at h
    have hd : d ≠ cat := fun hh => h.1 hh.symm
    have hb : bump cat ((d, n) :: ps) = (d, n) :: bump cat ps := by
      simp [bump, hd]
    rw [hb]
    simp [ih h.2]

theorem tallyGo_count (l : List Issue) :
    ∀ (acc : List (String × Nat)) (c : String),
      countOf (l.foldl (fun a i => bump i.category a) acc) c =
        countOf acc c + l.countP (fun i => i.category == c) := by
  induction l with
  | nil => simp
  | cons x xs ih =>
    intro acc c
    rw [List.foldl_cons, ih, countOf_bump, List.countP_cons]
    by_cases hc : c = x.category
    · have hb : (x.category == c) = true := by simp [hc.symm]
      simp [hc, hb]
      omega
    · have hb : (x.category == c) = false := by
        simp only [beq_eq_false_iff_ne, ne_eq]
        exact fun h => hc h.symm
      simp [hc, hb]

/-- The category `c1` first occurs strictly before the category `c2`
does: some prefix of the issue list contains `c1` but not `c2`
(insertion order of the JavaScript `counts` object keys). -/
def appearsBefore (issues : List Issue) (c1 c2 : String) : Prop :=
  ∃ n, c1 ∈ (issues.take n).map Issue.category ∧
    c2 ∉ (issues.take n).map Issue.category

theorem bump_keys_nodup (cat : String) (l : List (String × Nat))
    (h : (l.map Prod.fst).Nodup) : ((bump cat l).map Prod.fst).Nodup := by
  by_cases hm : cat ∈ l.map Prod.fst
  · rw [bump_keys_of_mem cat l hm]
    exact h
  · rw [bump_keys_of_not_mem cat l hm]
    simp [List.nodup_append, h, hm]

theorem tallyGo_pairwise (issues : List Issue) :
    ∀ (suffix pre : List Issue) (acc : List (String × Nat)),
      issues = pre ++ suffix →
      (∀ c, c ∈ acc.map Prod.fst ↔ c ∈ pre.map Issue.category) →
      (acc.map Prod.fst).Nodup →
      (acc.map Prod.fst).Pairwise (appearsBefore issues) →
      ((suffix.foldl (fun a i => bump i.category a) acc).map
          Prod.fst).Nodup ∧
      ((suffix.foldl (fun a i => bump i.category a) acc).map
          Prod.fst).Pairwise (appearsBefore issues) ∧
      (∀ c, c ∈ (suffix.foldl (fun a i => bump i.category a) acc).map
          Prod.fst ↔
        c ∈ pre.map Issue.category ∨ c ∈ suffix.map Issue.category) := by
  intro suffix
  induction suffix with
  | nil =>
    intro pre acc _ hkeys hnd hpw
    refine ⟨hnd, hpw, fun c => ?_⟩
    simp [hkeys c]
  | cons x rest ih =>
    intro pre acc heq hkeys hnd hpw
    have heq' : issues = (pre ++ [x]) ++ rest := by
      rw [heq]; simp
    have hkeys' : ∀ c, c ∈ (bump x.category acc).map Prod.fst ↔
        c ∈ (pre ++ [x]).map Issue.category := by
      intro c
      rw [bump_keys_mem, hkeys c]
      simp
    have hnd' := bump_keys_nodup x.category acc hnd
    have hpw' : ((bump x.category acc).map Prod.fst).Pairwise
        (appearsBefore issues) := by
      by_cases hm : x.category ∈ acc.map Prod.fst
      · rw [bump_keys_of_mem _ _ hm]; exact hpw
      · rw [bump_keys_of_not_mem _ _ hm]
        rw [List.pairwise_append]
        refine ⟨hpw, by simp, ?_⟩
        intro c' hc' b hb
        rw [List.mem_singleton] at hb
        subst hb
        refine ⟨pre.length, ?_, ?_⟩
        · have : (issues.take pre.length) = pre := by
            rw [heq]
            exact List.take_left pre (x :: rest)
          rw [this]
          exact (hkeys c').mp hc'
        · have : (issues.take pre.length) = pre := by
            rw [heq]
            exact List.take_left pre (x :: rest)
          rw [this]
          exact fun hx => hm ((hkeys x.category).mpr hx)
    have := ih (pre ++ [x]) (bump x.category acc) heq' hkeys' hnd' hpw'
    refine ⟨this.1, this.2.1, fun c => ?_⟩
    rw [List.foldl_cons] at *
    rw [this.2.2 c]
    simp only [List.map_append, List.mem_append, List.map_cons,
      List.mem_cons, List.map_nil, List.not_mem_nil, or_false]
    tauto

theorem tally_props (issues : List Issue) :
    ((tally issues).map Prod.fst).Nodup ∧
    ((tally issues).map Prod.fst).Pairwise (appearsBefore issues) ∧
    (∀ c, c ∈ (tally issues).map Prod.fst ↔
      c ∈ issues.map Issue.category) ∧
    (∀ c, countOf (tally issues) c =
      issues.countP fun i => i.category == c) := by
  have h := tallyGo_pairwise issues issues [] [] (by simp) (by simp)
    (by simp) (by simp)
  refine ⟨h.1, h.2.1, fun c => ?_, fun c => ?_⟩
  · rw [show tally issues =
      issues.foldl (fun a i => bump i.category a) [] from rfl]
    rw [h.2.2 c]
    simp
  · rw [show tally issues =
      issues.foldl (fun a i => bump i.category a) [] from rfl,
      tallyGo_count]
    simp [countOf]

theorem countOf_eq_of_mem (l : List (String × Nat)) (c : String) (n : Nat)
    (hnd : (l.map Prod.fst).Nodup) (hm : (c, n) ∈ l) :
    countOf l c = n := by
  induction l with
  | nil => simp at hm
  | cons p ps ih =>
    obtain ⟨d, m⟩ := p
    simp only [List.map_cons, List.nodup_cons] at hnd
    rcases List.mem_cons.mp hm with h | h
    · injection h with h1 h2
      subst h1
      subst h2
      exact countOf_cons_eq c n ps
    · have hcmem : c ∈ ps.map Prod.fst :=
        List.mem_map.mpr ⟨(c, n), h, rfl⟩
      have hd : d ≠ c := fun hh => hnd.1 (hh ▸ hcmem)
      rw [countOf_cons_ne d m ps c hd]
      exact ih hnd.2 h

/-- Descending-by-count order with a tie relation `F` on equal counts:
what the stable sort guarantees pairwise. -/
def byCountThen (F : CategoryStats → CategoryStats → Prop)
    (a b : CategoryStats) : Prop :=
  b.count < a.count ∨ (b.count = a.count ∧ F a b)

theorem mem_insertByCountDesc (x a : CategoryStats)
    (l : List CategoryStats) :
    a ∈ insertByCountDesc x l ↔ a = x ∨ a ∈ l := by
  induction l with
  | nil => simp [insertByCountDesc]
  | cons y ys ih =>
    by_cases hc : y.count ≤ x.count
    · simp only [insertByCountDesc, if_pos hc, List.mem_cons]
    · simp only [insertByCountDesc, if_neg hc, List.mem_cons, ih]
      tauto

theorem insertByCountDesc_perm (x : CategoryStats)
    (l : List CategoryStats) :
    List.Perm (insertByCountDesc x l) (x :: l) := by
  induction l with
  | nil => rfl
  | cons y ys ih =>
    by_cases hc : y.count ≤ x.count
    · rw [insertByCountDesc, if_pos hc]
    · rw [insertByCountDesc, if_neg hc]
      exact (ih.cons y).trans (List.Perm.swap x y ys)

theorem sortByCountDesc_perm (l : List CategoryStats) :
    List.Perm (sortByCountDesc l) l := by
  induction l with
  | nil => rfl
  | cons x xs ih =>
    rw [sortByCountDesc]
    exact (insertByCountDesc_perm x (sortByCountDesc xs)).trans (ih.cons x)

theorem insertByCountDesc_pairwise
    (F : CategoryStats → CategoryStats → Prop) (x : CategoryStats)
    (l : List CategoryStats) (hl : l.Pairwise (byCountThen F))
    (hx : ∀ y ∈ l, F x y) :
    (insertByCountDesc x l).Pairwise (byCountThen F) := by
  induction l with
  | nil => simp [insertByCountDesc, List.pairwise_cons]
  | cons y ys ih =>
    rw [List.pairwise_cons] at hl
    obtain ⟨hy, hys⟩ := hl
    by_cases hc : y.count ≤ x.count
    · rw [insertByCountDesc, if_pos hc]
      refine List.Pairwise.cons ?_ (List.Pairwise.cons hy hys)
      intro z hz
      rcases List.mem_cons.mp hz with rfl | hz'
      · rcases Nat.lt_or_ge z.count x.count with h | h
        · exact Or.inl h
        · exact Or.inr ⟨Nat.le_antisymm hc h, hx z (List.mem_cons_self z ys)⟩
      · have hzy := hy z hz'
        have hzc : z.count ≤ y.count := by
          rcases hzy with h | ⟨h, _⟩ <;> omega
        rcases Nat.lt_or_ge z.count x.count with h | h
        · exact Or.inl h
        · exact Or.inr ⟨by omega, hx z (List.mem_cons_of_mem y hz')⟩
    · rw [insertByCountDesc, if_neg hc]
      refine List.Pairwise.cons ?_
        (ih hys fun z hz => hx z (List.mem_cons_of_mem y hz))
      intro z hz
      rcases (mem_insertByCountDesc x z ys).mp hz with rfl | hz'
      · exact Or.inl (by omega)
      · exact hy z hz'

theorem sortByCountDesc_pairwise
    (F : CategoryStats → CategoryStats → Prop) (l : List CategoryStats)
    (hF : l.Pairwise F) :
    (sortByCountDesc l).Pairwise (byCountThen F) := by
  induction l with
  | nil => simp [sortByCountDesc]
  | cons x xs ih =>
    rw [List.pairwise_cons] at hF
    obtain ⟨hx, hxs⟩ := hF
    rw [sortByCountDesc]
    refine insertByCountDesc_pairwise F x (sortByCountDesc xs) (ih hxs) ?_
    intro y hy
    exact hx y ((sortByCountDesc_perm xs).mem_iff.mp hy)

/-- C8 amended: `getCategoryBreakdown` returns one entry per distinct
category (exactly the categories occurring in the input), each with the
correct count and with percentage `Math.round(count/total*100)`, sorted
descending by count — with ties ordered by first occurrence of the
category in the input list (the stable JavaScript sort over the
insertion-ordered counts object), not by category name. -/
theorem C8_category_breakdown (issues : List Issue) :
    (∀ e ∈ getCategoryBreakdown issues,
      e.count = issues.countP (fun i => i.category == e.category) ∧
      e.percentage =
        jsRound ((e.count : ℚ) / (issues.length : ℚ) * 100)) ∧
    ((getCategoryBreakdown issues).map fun e => e.category).Nodup ∧
    (∀ c, (c ∈ (getCategoryBreakdown issues).map fun e => e.category) ↔
      c ∈ issues.map Issue.category) ∧
    (getCategoryBreakdown issues).Pairwise
      (byCountThen fun a b =>
        appearsBefore issues a.category b.category) := by
  obtain ⟨hnd, hpw, hmem, hcount⟩ := tally_props issues
  by_cases h0 : issues.length = 0
  · have hnil : issues = [] := List.length_eq_zero.mp h0
    subst hnil
    simp [getCategoryBreakdown]
  · have hgb : getCategoryBreakdown issues =
        sortByCountDesc ((tally issues).map fun cn =>
          ({ category := cn.1, count := cn.2,
             percentage :=
               jsRound ((cn.2 : ℚ) / (issues.length : ℚ) * 100) } :
            CategoryStats)) := by
      simp [getCategoryBreakdown, h0]
    have hperm : List.Perm (getCategoryBreakdown issues)
        ((tally issues).map fun cn =>
          ({ category := cn.1, count := cn.2,
             percentage :=
               jsRound ((cn.2 : ℚ) / (issues.length : ℚ) * 100) } :
            CategoryStats)) := by
      rw [hgb]
      exact sortByCountDesc_perm _
    refine ⟨?_, ?_, ?_, ?_⟩
    · intro e he
      have hemem := hperm.mem_iff.mp he
      obtain ⟨cn, hcn, rfl⟩ := List.mem_map.mp hemem
      obtain ⟨c, n⟩ := cn
      have hcn' := countOf_eq_of_mem (tally issues) c n hnd hcn
      constructor
      · rw [← hcount c]
        exact hcn'.symm
      · rfl
    · have hcats : (((tally issues).map fun cn =>
          ({ category := cn.1, count := cn.2,
             percentage :=
               jsRound ((cn.2 : ℚ) / (issues.length : ℚ) * 100) } :
            CategoryStats)).map fun e => e.category) =
          (tally issues).map Prod.fst := by
        rw [List.map_map]
        rfl
      have := (hperm.map fun e => e.category).nodup_iff
      rw [hcats] at this
      exact this.mpr hnd
    · intro c
      have := (hperm.map fun e => e.category).mem_iff (a := c)
      rw [this, List.map_map]
      rw [show (((fun e : CategoryStats => e.category) ∘ fun cn :
          String × Nat =>
          ({ category := cn.1, count := cn.2,
             percentage :=
               jsRound ((cn.2 : ℚ) / (issues.length : ℚ) * 100) } :
            CategoryStats))) = Prod.fst from rfl]
      exact hmem c
    · rw [hgb]
      apply sortByCountDesc_pairwise
      rw [List.pairwise_map]
      rw [List.pairwise_map] at hpw
      exact hpw

/-- A single `water` report. -/
def demoW : Issue := { id := "w", category := "water" }

/-- A single `roads` report. -/
def demoR : Issue := { id := "r", category := "roads" }

/-- Scenario D input: two `water` reports and one `roads` report. -/
def demoListD : List Issue :=
  [{ id := "a", category := "water" }, { id := "b", category := "water" },
   { id := "c", category := "roads" }]

/-- C8 counterexample: over `[{water}, {roads}]` both categories count
1; the claimed name-ascending tie-break requires `roads` (< `water`)
first, but the stable sort keeps the first-occurrence order and the
code returns `water` first. -/
theorem C8_cex :
    (getCategoryBreakdown [demoW, demoR]).map
      (fun e => (e.category, e.count)) = [("water", 1), ("roads", 1)] ∧
    ("roads" : String).data.head? = some ('r' : Char) ∧
    ("water" : String).data.head? = some ('w' : Char) ∧
    ('r' : Char) < 'w' := by
  refine ⟨by decide, by decide, by decide, by decide⟩

/-- C8 witness: Scenario D — `countsByCategory` over
`[{water},{water},{roads}]` is `[{water,2,67},{roads,1,33}]`, and the
categories listed are distinct. -/
theorem C8_category_breakdown_witness :
    getCategoryBreakdown demoListD =
      [{ category := "water", count := 2, percentage := 67 },
       { category := "roads", count := 1, percentage := 33 }] ∧
    ((getCategoryBreakdown demoListD).map fun e => e.category).Nodup := by
  refine ⟨?_, (C8_category_breakdown demoListD).2.1⟩
  have h1 : tally demoListD = [("water", 2), ("roads", 1)] := by decide
  have h2 : demoListD.length = 3 := by decide
  rw [getCategoryBreakdown]
  rw [h1, h2]
  simp only [List.map_cons, List.map_nil]
  norm_num [sortByCountDesc, insertByCountDesc, jsRound]
